import Mathlib

/-!
Shallow embedding of `tqdm.py` (the original minimal tqdm progress meter):
the interval formatter, the meter formatter, the status printer and the
generator-based progress wrapper, together with theorems checking the
specification's claims against these definitions.

Numbers: Python integers are modelled as `ℕ`/`ℤ`; wall-clock times and the
`elapsed` argument (Python floats) are modelled as exact rationals `ℚ`.
Python's `int()` truncation toward zero is `ratTrunc`, Python's `divmod`
(floor semantics) is `pyDivmod`, and `'%.2f'` formatting is modelled as
rounding the exact rational to the nearest hundredth (half up).
-/

/-- `'c' * k` : a string of `k` copies of one character. -/
def mkStr (k : ℕ) (c : Char) : String := ⟨List.replicate k c⟩

/-- Decimal digits of `n`, most significant first; `fuel` bounds recursion
(structural, so that the kernel can evaluate it). -/
def decDigitsAux : ℕ → ℕ → List Char
  | 0, _ => []
  | fuel+1, n => if n < 10 then [Nat.digitChar n] else decDigitsAux fuel (n / 10) ++ [Nat.digitChar (n % 10)]

/-- Decimal representation of a natural number (Python `'%d' % n` for `n ≥ 0`). -/
def decRepr (n : ℕ) : String := ⟨decDigitsAux (n+1) n⟩

/-- Python `'%d' % z` for an arbitrary integer. -/
def pyD (z : ℤ) : String := if z < 0 then "-" ++ decRepr (-z).toNat else decRepr z.toNat

/-- Zero-pad the decimal representation of a natural to width `w`. -/
def zeroPadNat (w : ℕ) (m : ℕ) : String := mkStr (w - (decRepr m).length) '0' ++ decRepr m

/-- Python `'%0wd' % z` (the sign precedes the zero padding). -/
def pyZeroPad (w : ℕ) (z : ℤ) : String :=
  if z < 0 then "-" ++ zeroPadNat (w - 1) (-z).toNat else zeroPadNat w z.toNat

/-- Right-justify a string to width `w` with spaces (Python `'%ws'`). -/
def pySpacePad (w : ℕ) (s : String) : String := mkStr (w - s.length) ' ' ++ s

/-- Python `int(q)`: truncation toward zero. -/
def ratTrunc (q : ℚ) : ℤ := if 0 ≤ q then ⌊q⌋ else ⌈q⌉

/-- Python `divmod(a, b)` on integers: floor division and remainder. -/
def pyDivmod (a b : ℤ) : ℤ × ℤ := (Int.fdiv a b, Int.fmod a b)

/-- Python `'%.2f' % q` on the exact rational `q`: the value rounded to the
nearest hundredth (ties away from zero), printed with exactly two decimals. -/
def pyF2 (q : ℚ) : String :=
  let c : ℤ := if 0 ≤ q then ⌊q * 100 + 1/2⌋ else -⌊(-q) * 100 + 1/2⌋
  let body : ℕ → String := fun m => decRepr (m / 100) ++ "." ++ zeroPadNat 2 (m % 100)
  if c < 0 then "-" ++ body (-c).toNat else body c.toNat

/-- `format_interval(t)` from `tqdm.py`:
`mins, s = divmod(int(t), 60); h, m = divmod(mins, 60)`;
`'%d:%02d:%02d' % (h, m, s)` if `h` is truthy else `'%02d:%02d' % (m, s)`. -/
def format_interval (t : ℚ) : String :=
  let ms := pyDivmod (ratTrunc t) 60
  let hm := pyDivmod ms.1 60
  if hm.1 ≠ 0 then
    pyD hm.1 ++ ":" ++ pyZeroPad 2 hm.2 ++ ":" ++ pyZeroPad 2 ms.2
  else
    pyZeroPad 2 hm.2 ++ ":" ++ pyZeroPad 2 ms.2

/-- The rate field of `format_meter`:
`'%5.2f' % (n / elapsed) if elapsed else '?'`. -/
def rateStr (n : ℕ) (elapsed : ℚ) : String :=
  if elapsed ≠ 0 then pySpacePad 5 (pyF2 ((n : ℚ) / elapsed)) else "?"

/-- The 10-character bar of `format_meter`'s known-total branch:
`bar_length = int(frac * 10)`; `'#' * bar_length + '-' * (10 - bar_length)`. -/
def barStr (n : ℕ) (t : ℤ) : String :=
  let frac : ℚ := (n : ℚ) / (t : ℚ)
  let bar_length := ratTrunc (frac * 10)
  mkStr bar_length.toNat '#' ++ mkStr (10 - bar_length).toNat '-'

/-- The percentage field of `format_meter`'s known-total branch:
`'%3d%%' % (frac * 100)` (`%d` applied to a number truncates toward zero). -/
def pctStr (n : ℕ) (t : ℤ) : String :=
  let frac : ℚ := (n : ℚ) / (t : ℚ)
  pySpacePad 3 (pyD (ratTrunc (frac * 100))) ++ "%"

/-- The remaining-time field of `format_meter`'s known-total branch:
`format_interval(elapsed / n * (total - n)) if n else '?'`. -/
def leftStr (n : ℕ) (t : ℤ) (elapsed : ℚ) : String :=
  if n ≠ 0 then format_interval (elapsed / (n : ℚ) * ((t : ℚ) - (n : ℚ))) else "?"

/-- The unknown-total output shape of `format_meter`:
`'%d [elapsed: %s, %s iters/sec]' % (n, elapsed_str, rate)`. -/
def unknownLine (n : ℕ) (elapsed : ℚ) : String :=
  decRepr n ++ " [elapsed: " ++ format_interval elapsed ++ ", " ++ rateStr n elapsed ++ " iters/sec]"

/-- The known-total output shape of `format_meter`:
`'|%s| %d/%d %s [elapsed: %s left: %s, %s iters/sec]'`. -/
def knownLine (n : ℕ) (t : ℤ) (elapsed : ℚ) : String :=
  "|" ++ barStr n t ++ "| " ++ decRepr n ++ "/" ++ pyD t ++ " " ++ pctStr n t ++
    " [elapsed: " ++ format_interval elapsed ++ " left: " ++ leftStr n t elapsed ++
    ", " ++ rateStr n elapsed ++ " iters/sec]"

/-- `format_meter(n, total, elapsed)` from `tqdm.py`. `total = none` models
Python `None`. Under the Python 2 semantics this code was written for
(`xrange` fallback), `n > None` is true for every int `n`, so the guard
`if n > total: total = None` leaves an absent total absent; `if total:`
is truthiness, so `total == 0` also selects the unknown-total branch. -/
def format_meter (n : ℕ) (total : Option ℤ) (elapsed : ℚ) : String :=
  let total := match total with
    | none => none
    | some t => if (n : ℤ) > t then none else some t
  match total with
  | some t => if t ≠ 0 then knownLine n t elapsed else unknownLine n elapsed
  | none => unknownLine n elapsed

/-- `StatusPrinter`: the output sink is modelled as the ordered list of strings
written to it; `flush` is a no-op on this model. -/
structure StatusPrinter where
  writes : List String
  last_printed_len : ℕ
deriving DecidableEq

/-- `StatusPrinter.print_status(s)`:
`self.file.write('\r' + s + ' ' * max(self.last_printed_len - len(s), 0))`;
`self.file.flush()`; `self.last_printed_len = len(s)`. -/
def print_status (sp : StatusPrinter) (s : String) : StatusPrinter :=
  { writes := sp.writes ++ ["\r" ++ s ++ mkStr (sp.last_printed_len - s.length) ' '],
    last_printed_len := s.length }

/-- Configuration of `tqdm` (the keyword arguments other than `file`). -/
structure Config where
  desc : String
  total : Option ℤ
  leave : Bool
  mininterval : ℚ
  miniters : ℤ
deriving DecidableEq

/-- The whole mutable state of one `tqdm` generator run. The `file` stream and
`sys.stdout` are each modelled as the ordered list of strings written to them;
`time.time()` is modelled as an oracle `clock : ℕ → ℚ` read at successive
indices (`clockIdx` counts the calls made so far). `renders` is a ghost
counter of the status prints issued inside the loop (the non-terminal
renders). -/
structure TState where
  fileWrites : List String
  stdoutWrites : List String
  lastLen : ℕ
  startT : ℚ
  lastPrintT : ℚ
  lastPrintN : ℕ
  n : ℕ
  clockIdx : ℕ
  renders : ℕ
deriving DecidableEq

/-- Route a `sp.print_status` call through the embedded `StatusPrinter` whose
sink is the `file` stream of the run. -/
def spPrint (st : TState) (s : String) : TState :=
  let p := print_status ⟨st.fileWrites, st.lastLen⟩ s
  { st with fileWrites := p.writes, lastLen := p.last_printed_len }

/-- `prefix = desc + ': ' if desc else ''`. -/
def pfxOf (desc : String) : String := if desc ≠ "" then desc ++ ": " else ""

/-- `if total is None: try: total = len(iterable) except TypeError: total = None`.
`lenOpt` is the length the iterable reports, `none` when `len` is unsupported. -/
def resolveTotal (total : Option ℤ) (lenOpt : Option ℕ) : Option ℤ :=
  match total with
  | some t => some t
  | none => lenOpt.map (fun l => (l : ℤ))

/-- State before the first element is pulled: the initial render at
`n=0, elapsed=0`, then the single `time.time()` read that seeds both
`start_t` and `last_print_t`. -/
def initState (clock : ℕ → ℚ) (pfx : String) (total : Option ℤ) : TState :=
  let st0 : TState :=
    { fileWrites := [], stdoutWrites := [], lastLen := 0, startT := 0,
      lastPrintT := 0, lastPrintN := 0, n := 0, clockIdx := 0, renders := 0 }
  let st1 := spPrint st0 (pfx ++ format_meter 0 total 0)
  { st1 with startT := clock 0, lastPrintT := clock 0, clockIdx := 1 }

/-- The loop body after one element has been yielded:
`n += 1; if n - last_print_n >= miniters:` (the counter check comes first to
avoid the `time.time()` call) `cur_t = time.time();
if cur_t - last_print_t >= mininterval:` render and update
`last_print_n, last_print_t`. -/
def loopStep (clock : ℕ → ℚ) (cfg : Config) (pfx : String) (total : Option ℤ)
    (st : TState) : TState :=
  let st := { st with n := st.n + 1 }
  if (st.n : ℤ) - (st.lastPrintN : ℤ) ≥ cfg.miniters then
    let cur := clock st.clockIdx
    let st := { st with clockIdx := st.clockIdx + 1 }
    if cur - st.lastPrintT ≥ cfg.mininterval then
      let st := spPrint st (pfx ++ format_meter st.n total (cur - st.startT))
      { st with lastPrintN := st.n, lastPrintT := cur, renders := st.renders + 1 }
    else st
  else st

/-- `for obj in iterable: yield obj; <loopStep>` — returns the list of yielded
elements together with the state after the wrapped sequence is exhausted. -/
def runLoop (clock : ℕ → ℚ) (cfg : Config) (pfx : String) (total : Option ℤ)
    (xs : List α) (st : TState) : List α × TState :=
  xs.foldl (fun acc obj => (acc.1 ++ [obj], loopStep clock cfg pfx total acc.2)) ([], st)

/-- Termination code after the loop: `if not leave: sp.print_status('');
sys.stdout.write('\r')` else render once more when `last_print_n < n`, then
`file.write('\n')`. -/
def finishTq (clock : ℕ → ℚ) (cfg : Config) (pfx : String) (total : Option ℤ)
    (st : TState) : TState :=
  if cfg.leave = false then
    let st := spPrint st ""
    { st with stdoutWrites := st.stdoutWrites ++ ["\r"] }
  else
    let st :=
      if st.lastPrintN < st.n then
        let cur := clock st.clockIdx
        let st := { st with clockIdx := st.clockIdx + 1 }
        spPrint st (pfx ++ format_meter st.n total (cur - st.startT))
      else st
    { st with fileWrites := st.fileWrites ++ ["\n"] }

/-- The `tqdm` generator, run to completion over a finite sequence `xs`:
returns the yielded elements and the final state of the run. -/
def tqdm (xs : List α) (cfg : Config) (lenOpt : Option ℕ) (clock : ℕ → ℚ) :
    List α × TState :=
  let total := resolveTotal cfg.total lenOpt
  let pfx := pfxOf cfg.desc
  let p := runLoop clock cfg pfx total xs (initState clock pfx total)
  (p.1, finishTq clock cfg pfx total p.2)

/-- `loopStep` folded over the input, state only (the second component of
`runLoop`). -/
def loopFold (clock : ℕ → ℚ) (cfg : Config) (pfx : String) (total : Option ℤ)
    (xs : List α) (st : TState) : TState :=
  xs.foldl (fun s _ => loopStep clock cfg pfx total s) st

lemma runLoop_foldl_aux (clock : ℕ → ℚ) (cfg : Config) (pfx : String)
    (total : Option ℤ) (xs : List α) : ∀ (acc : List α) (st : TState),
    xs.foldl (fun a obj => (a.1 ++ [obj], loopStep clock cfg pfx total a.2)) (acc, st)
      = (acc ++ xs, loopFold clock cfg pfx total xs st) := by
  induction xs with
  | nil => intro acc st; simp [loopFold]
  | cons x xs ih =>
      intro acc st
      simp only [List.foldl_cons, loopFold]
      rw [ih]
      simp [loopFold]

lemma runLoop_eq (clock : ℕ → ℚ) (cfg : Config) (pfx : String) (total : Option ℤ)
    (xs : List α) (st : TState) :
    runLoop clock cfg pfx total xs st = (xs, loopFold clock cfg pfx total xs st) := by
  unfold runLoop
  rw [runLoop_foldl_aux]
  simp

/-- C1: consuming the sequence returned by `tqdm(S, ...)` to completion yields
exactly the elements of `S`, unchanged, in the same order and with the same
length, for every configuration, length report and clock. -/
theorem tqdm_yields_exactly (α : Type) (xs : List α) (cfg : Config)
    (lenOpt : Option ℕ) (clock : ℕ → ℚ) :
    (tqdm xs cfg lenOpt clock).1 = xs := by
  simp [tqdm, runLoop_eq]

/-- C2: `format_meter(30, 50, 3.07)` is exactly the advertised line, with a
bar of 6 `#` marks and 4 `-` marks and the percentage right-justified to
width 3. -/
theorem format_meter_known_example :
    format_meter 30 (some 50) (307/100) =
      "|######----| 30/50  60% [elapsed: 00:03 left: 00:02,  9.77 iters/sec]"
    ∧ "|######----| 30/50  60% [elapsed: 00:03 left: 00:02,  9.77 iters/sec]" =
        "|" ++ mkStr 6 '#' ++ mkStr 4 '-' ++ "| 30/50 " ++ pySpacePad 3 "60" ++ "%" ++
          " [elapsed: 00:03 left: 00:02,  9.77 iters/sec]" := by
  constructor
  · norm_num [format_meter, knownLine, barStr, pctStr, leftStr, rateStr, format_interval,
      ratTrunc, pyDivmod, pyF2]
    decide
  · decide

/-- C6: `format_meter(5, None, 10.0)` (unknown total) is exactly
`'5 [elapsed: 00:10,  0.50 iters/sec]'`. -/
theorem format_meter_unknown_example :
    format_meter 5 none 10 = "5 [elapsed: 00:10,  0.50 iters/sec]" := by
  norm_num [format_meter, unknownLine, rateStr, format_interval, ratTrunc, pyDivmod, pyF2]
  decide

/-- C8: `print_status(s)` performs exactly one write, consisting of a carriage
return, then `s`, then `max(0, previous_length - len(s))` spaces, and the
stored length afterwards equals `len(s)` (the sink flush is a no-op in this
model of the stream). -/
theorem print_status_exact (sp : StatusPrinter) (s : String) :
    print_status sp s =
      { writes := sp.writes ++
          ["\r" ++ s ++ mkStr (max ((sp.last_printed_len : ℤ) - (s.length : ℤ)) 0).toNat ' '],
        last_printed_len := s.length } := by
  unfold print_status
  have h : sp.last_printed_len - s.length
      = (max ((sp.last_printed_len : ℤ) - (s.length : ℤ)) 0).toNat := by omega
  rw [h]

lemma loopStep_pos (clock : ℕ → ℚ) (cfg : Config) (pfx : String) (total : Option ℤ)
    (st : TState)
    (h1 : (st.n + 1 : ℤ) - (st.lastPrintN : ℤ) ≥ cfg.miniters)
    (h2 : clock st.clockIdx - st.lastPrintT ≥ cfg.mininterval) :
    loopStep clock cfg pfx total st =
      { st with
        n := st.n + 1, clockIdx := st.clockIdx + 1,
        fileWrites := st.fileWrites ++
          ["\r" ++ (pfx ++ format_meter (st.n + 1) total (clock st.clockIdx - st.startT)) ++
            mkStr (st.lastLen -
              (pfx ++ format_meter (st.n + 1) total (clock st.clockIdx - st.startT)).length) ' '],
        lastLen := (pfx ++ format_meter (st.n + 1) total (clock st.clockIdx - st.startT)).length,
        lastPrintN := st.n + 1, lastPrintT := clock st.clockIdx,
        renders := st.renders + 1 } := by
  simp [loopStep, spPrint, print_status, h1, h2]

lemma loopStep_negA (clock : ℕ → ℚ) (cfg : Config) (pfx : String) (total : Option ℤ)
    (st : TState)
    (h1 : ¬ ((st.n + 1 : ℤ) - (st.lastPrintN : ℤ) ≥ cfg.miniters)) :
    loopStep clock cfg pfx total st = { st with n := st.n + 1 } := by
  simp [loopStep, h1]

lemma loopStep_negB (clock : ℕ → ℚ) (cfg : Config) (pfx : String) (total : Option ℤ)
    (st : TState)
    (h1 : (st.n + 1 : ℤ) - (st.lastPrintN : ℤ) ≥ cfg.miniters)
    (h2 : ¬ (clock st.clockIdx - st.lastPrintT ≥ cfg.mininterval)) :
    loopStep clock cfg pfx total st =
      { st with n := st.n + 1, clockIdx := st.clockIdx + 1 } := by
  simp [loopStep, h1, h2]

/-- Invariant tying the ghost render counter to the counters of the run. -/
def RenderInv (k : ℕ) (st : TState) : Prop :=
  st.renders * k ≤ st.lastPrintN ∧ st.lastPrintN ≤ st.n

lemma loopStep_inv (clock : ℕ → ℚ) (cfg : Config) (pfx : String) (total : Option ℤ)
    (k : ℕ) (hmk : cfg.miniters = (k : ℤ)) (st : TState)
    (h : RenderInv k st) : RenderInv k (loopStep clock cfg pfx total st) := by
  by_cases h1 : (st.n + 1 : ℤ) - (st.lastPrintN : ℤ) ≥ cfg.miniters
  · by_cases h2 : clock st.clockIdx - st.lastPrintT ≥ cfg.mininterval
    · rw [loopStep_pos clock cfg pfx total st h1 h2]
      rw [hmk] at h1
      unfold RenderInv at h ⊢
      simp only
      constructor
      · have : (st.lastPrintN : ℤ) + k ≤ st.n + 1 := by omega
        have hk' : st.lastPrintN + k ≤ st.n + 1 := by exact_mod_cast this
        have hsm : (st.renders + 1) * k = st.renders * k + k := Nat.succ_mul _ _
        omega
      · omega
    · rw [loopStep_negB clock cfg pfx total st h1 h2]
      unfold RenderInv at h ⊢
      simp only
      omega
  · rw [loopStep_negA clock cfg pfx total st h1]
    unfold RenderInv at h ⊢
    simp only
    omega

lemma loopStep_n (clock : ℕ → ℚ) (cfg : Config) (pfx : String) (total : Option ℤ)
    (st : TState) : (loopStep clock cfg pfx total st).n = st.n + 1 := by
  by_cases h1 : (st.n + 1 : ℤ) - (st.lastPrintN : ℤ) ≥ cfg.miniters
  · by_cases h2 : clock st.clockIdx - st.lastPrintT ≥ cfg.mininterval
    · rw [loopStep_pos clock cfg pfx total st h1 h2]
    · rw [loopStep_negB clock cfg pfx total st h1 h2]
  · rw [loopStep_negA clock cfg pfx total st h1]

lemma loopFold_inv (clock : ℕ → ℚ) (cfg : Config) (pfx : String) (total : Option ℤ)
    (k : ℕ) (hmk : cfg.miniters = (k : ℤ)) (xs : List α) :
    ∀ st : TState, RenderInv k st →
      RenderInv k (loopFold clock cfg pfx total xs st) := by
  induction xs with
  | nil => intro st h; simpa [loopFold] using h
  | cons x xs ih =>
      intro st h
      simp only [loopFold, List.foldl_cons]
      exact ih _ (loopStep_inv clock cfg pfx total k hmk st h)

lemma loopFold_n (clock : ℕ → ℚ) (cfg : Config) (pfx : String) (total : Option ℤ)
    (xs : List α) : ∀ st : TState,
    (loopFold clock cfg pfx total xs st).n = st.n + xs.length := by
  induction xs with
  | nil => intro st; simp [loopFold]
  | cons x xs ih =>
      intro st
      simp only [loopFold, List.foldl_cons] at ih ⊢
      rw [ih, loopStep_n]
      simp
      omega

lemma finishTq_renders (clock : ℕ → ℚ) (cfg : Config) (pfx : String)
    (total : Option ℤ) (st : TState) :
    (finishTq clock cfg pfx total st).renders = st.renders := by
  unfold finishTq
  by_cases hl : cfg.leave = false
  · simp [hl, spPrint, print_status]
  · by_cases hn : st.lastPrintN < st.n
    · simp [hl, hn, spPrint, print_status]
    · simp [hl, hn, spPrint, print_status]

lemma initState_fields (clock : ℕ → ℚ) (pfx : String) (total : Option ℤ) :
    (initState clock pfx total).renders = 0 ∧
    (initState clock pfx total).lastPrintN = 0 ∧
    (initState clock pfx total).n = 0 := by
  simp [initState, spPrint, print_status]

/-- C3: during iteration a non-terminal render happens exactly when both
`count - last_print_count >= miniters` and `current_time - last_print_time >=
mininterval` hold (the counter check gates the clock read), each render sets
`last_print_count` and `last_print_time` to the current count and time, a
non-render leaves the stream untouched, and a run over a sequence of length
`L` with `miniters = k > 0` issues at most `⌈L/k⌉ = (L + k - 1) / k`
non-terminal renders. -/
theorem tqdm_render_gating_and_bound {α : Type} (clock : ℕ → ℚ) (cfg : Config)
    (pfx : String) (total : Option ℤ) (xs : List α) (lenOpt : Option ℕ)
    (k : ℕ) (hk : 0 < k) (hmk : cfg.miniters = (k : ℤ)) :
    (∀ st : TState,
      ((loopStep clock cfg pfx total st).renders = st.renders + 1 ↔
        ((st.n + 1 : ℤ) - (st.lastPrintN : ℤ) ≥ cfg.miniters ∧
          clock st.clockIdx - st.lastPrintT ≥ cfg.mininterval)) ∧
      ((st.n + 1 : ℤ) - (st.lastPrintN : ℤ) ≥ cfg.miniters →
        clock st.clockIdx - st.lastPrintT ≥ cfg.mininterval →
        (loopStep clock cfg pfx total st).lastPrintN = st.n + 1 ∧
        (loopStep clock cfg pfx total st).lastPrintT = clock st.clockIdx) ∧
      ((loopStep clock cfg pfx total st).renders = st.renders →
        (loopStep clock cfg pfx total st).fileWrites = st.fileWrites))
    ∧ (tqdm xs cfg lenOpt clock).2.renders ≤ (xs.length + k - 1) / k := by
  constructor
  · intro st
    by_cases h1 : (st.n + 1 : ℤ) - (st.lastPrintN : ℤ) ≥ cfg.miniters
    · by_cases h2 : clock st.clockIdx - st.lastPrintT ≥ cfg.mininterval
      · rw [loopStep_pos clock cfg pfx total st h1 h2]
        refine ⟨by simp [h1, h2], fun _ _ => by simp, fun hq => absurd hq (by simp)⟩
      · rw [loopStep_negB clock cfg pfx total st h1 h2]
        exact ⟨by simp [h2], fun _ hc => absurd hc h2, fun _ => by simp⟩
    · rw [loopStep_negA clock cfg pfx total st h1]
      exact ⟨by simp [h1], fun hc _ => absurd hc h1, fun _ => by simp⟩
  · have h0 : RenderInv k (initState clock (pfxOf cfg.desc) (resolveTotal cfg.total lenOpt)) := by
      constructor <;> simp [initState, spPrint, print_status]
    have hinv := loopFold_inv clock cfg (pfxOf cfg.desc) (resolveTotal cfg.total lenOpt)
      k hmk xs _ h0
    have hn := loopFold_n clock cfg (pfxOf cfg.desc) (resolveTotal cfg.total lenOpt)
      xs (initState clock (pfxOf cfg.desc) (resolveTotal cfg.total lenOpt))
    have hn0 : (initState clock (pfxOf cfg.desc) (resolveTotal cfg.total lenOpt)).n = 0 := by
      simp [initState, spPrint, print_status]
    have ht : (tqdm xs cfg lenOpt clock).2
        = finishTq clock cfg (pfxOf cfg.desc) (resolveTotal cfg.total lenOpt)
            (loopFold clock cfg (pfxOf cfg.desc) (resolveTotal cfg.total lenOpt) xs
              (initState clock (pfxOf cfg.desc) (resolveTotal cfg.total lenOpt))) := by
      simp [tqdm, runLoop_eq]
    rw [ht, finishTq_renders]
    obtain ⟨ha, hb⟩ := hinv
    have hmul : (loopFold clock cfg (pfxOf cfg.desc) (resolveTotal cfg.total lenOpt) xs
        (initState clock (pfxOf cfg.desc) (resolveTotal cfg.total lenOpt))).renders * k
        ≤ xs.length := by
      rw [hn, hn0] at hb
      omega
    calc (loopFold clock cfg (pfxOf cfg.desc) (resolveTotal cfg.total lenOpt) xs
        (initState clock (pfxOf cfg.desc) (resolveTotal cfg.total lenOpt))).renders
        ≤ xs.length / k := (Nat.le_div_iff_mul_le hk).mpr hmul
      _ ≤ (xs.length + k - 1) / k := Nat.div_le_div_right (by omega)

/-- Witness for C3 at a concrete run: three elements, `miniters = 1`. -/
theorem tqdm_render_gating_and_bound_witness :
    (tqdm ([0, 1, 2] : List ℕ) ⟨"", none, false, 0, 1⟩ none (fun _ => 0)).2.renders ≤
      (([0, 1, 2] : List ℕ).length + 1 - 1) / 1 :=
  (tqdm_render_gating_and_bound (fun _ => 0) ⟨"", none, false, 0, 1⟩ "" none
    ([0, 1, 2] : List ℕ) none 1 (by decide) (by decide)).2

lemma loopStep_stdout (clock : ℕ → ℚ) (cfg : Config) (pfx : String)
    (total : Option ℤ) (st : TState) :
    (loopStep clock cfg pfx total st).stdoutWrites = st.stdoutWrites := by
  by_cases h1 : (st.n + 1 : ℤ) - (st.lastPrintN : ℤ) ≥ cfg.miniters
  · by_cases h2 : clock st.clockIdx - st.lastPrintT ≥ cfg.mininterval
    · rw [loopStep_pos clock cfg pfx total st h1 h2]
    · rw [loopStep_negB clock cfg pfx total st h1 h2]
  · rw [loopStep_negA clock cfg pfx total st h1]

lemma loopFold_stdout (clock : ℕ → ℚ) (cfg : Config) (pfx : String)
    (total : Option ℤ) (xs : List α) : ∀ st : TState,
    (loopFold clock cfg pfx total xs st).stdoutWrites = st.stdoutWrites := by
  induction xs with
  | nil => intro st; simp [loopFold]
  | cons x xs ih =>
      intro st
      simp only [loopFold, List.foldl_cons] at ih ⊢
      rw [ih, loopStep_stdout]

lemma initState_stdout (clock : ℕ → ℚ) (pfx : String) (total : Option ℤ) :
    (initState clock pfx total).stdoutWrites = [] := by
  simp [initState, spPrint, print_status]

/-- C4: after full consumption, with `leave = false` the `file` stream's last
write is the cleared, space-padded empty status line and `sys.stdout` has
received exactly one bare carriage return; with `leave = true` nothing goes
to `sys.stdout`, and when the last render's count lags the final count one
further render of the final meter is written, the stream ending with that
line followed by a lone newline (otherwise just the newline). `stL` is the
state after the loop has consumed the whole sequence. -/
theorem tqdm_termination {α : Type} (xs : List α) (cfg : Config)
    (lenOpt : Option ℕ) (clock : ℕ → ℚ) :
    ∀ stL : TState,
      stL = loopFold clock cfg (pfxOf cfg.desc) (resolveTotal cfg.total lenOpt) xs
        (initState clock (pfxOf cfg.desc) (resolveTotal cfg.total lenOpt)) →
    ((tqdm xs cfg lenOpt clock).2
        = finishTq clock cfg (pfxOf cfg.desc) (resolveTotal cfg.total lenOpt) stL)
    ∧ (cfg.leave = false →
        (tqdm xs cfg lenOpt clock).2.fileWrites
            = stL.fileWrites ++ ["\r" ++ mkStr stL.lastLen ' ']
        ∧ (tqdm xs cfg lenOpt clock).2.stdoutWrites = ["\r"])
    ∧ (cfg.leave = true →
        (tqdm xs cfg lenOpt clock).2.stdoutWrites = []
        ∧ (stL.lastPrintN < stL.n →
            (tqdm xs cfg lenOpt clock).2.fileWrites
              = stL.fileWrites ++
                ["\r" ++ (pfxOf cfg.desc ++
                    format_meter stL.n (resolveTotal cfg.total lenOpt)
                      (clock stL.clockIdx - stL.startT)) ++
                  mkStr (stL.lastLen -
                    (pfxOf cfg.desc ++
                      format_meter stL.n (resolveTotal cfg.total lenOpt)
                        (clock stL.clockIdx - stL.startT)).length) ' ', "\n"])
        ∧ (¬ stL.lastPrintN < stL.n →
            (tqdm xs cfg lenOpt clock).2.fileWrites = stL.fileWrites ++ ["\n"])) := by
  intro stL hstL
  have hso : stL.stdoutWrites = [] := by
    rw [hstL, loopFold_stdout, initState_stdout]
  have hT : (tqdm xs cfg lenOpt clock).2
      = finishTq clock cfg (pfxOf cfg.desc) (resolveTotal cfg.total lenOpt) stL := by
    rw [hstL]
    simp [tqdm, runLoop_eq]
  refine ⟨hT, ?_, ?_⟩
  · intro hl
    rw [hT]
    constructor
    · simp [finishTq, hl, spPrint, print_status,
        show ("\r" ++ "" : String) = "\r" from rfl]
    · simp [finishTq, hl, spPrint, print_status, hso]
  · intro hl
    have hl' : ¬ (cfg.leave = false) := by simp [hl]
    rw [hT]
    refine ⟨?_, ?_, ?_⟩
    · by_cases hn : stL.lastPrintN < stL.n
      · simp [finishTq, hl', hn, spPrint, print_status, hso]
      · simp [finishTq, hl', hn, spPrint, print_status, hso]
    · intro hn
      simp [finishTq, hl', hn, spPrint, print_status]
    · intro hn
      simp [finishTq, hl', hn, spPrint, print_status]

/-- Witness for C4: a one-element run with `leave = false` ends in the cleared
line and the bare carriage return on stdout. -/
theorem tqdm_termination_witness :
    (tqdm ([7] : List ℕ) ⟨"", none, false, 0, 1⟩ none (fun _ => 0)).2.stdoutWrites = ["\r"] :=
  ((tqdm_termination ([7] : List ℕ) ⟨"", none, false, 0, 1⟩ none (fun _ => 0) _ rfl).2.1
    rfl).2

/-- C5: `format_meter` is a total function (nothing to raise on `elapsed == 0`,
`n == 0` or `total == 0`: the division sites are guarded exactly as in the
source); whenever `n > total` or `total == 0` the output takes the
unknown-total shape; and every output contains the substring `iters/sec`. -/
theorem format_meter_shape_safe (n : ℕ) (total : Option ℤ) (elapsed : ℚ)
    (he : 0 ≤ elapsed) :
    ("iters/sec".data <:+: (format_meter n total elapsed).data)
    ∧ (∀ t : ℤ, total = some t → ((n : ℤ) > t ∨ t = 0) →
        format_meter n total elapsed = unknownLine n elapsed)
    ∧ (total = none → format_meter n total elapsed = unknownLine n elapsed) := by
  have key : ∀ s : String, "iters/sec".data <:+: (s ++ " iters/sec]").data := by
    intro s
    rw [String.data_append]
    exact List.IsInfix.trans (by decide) (List.suffix_append _ _).isInfix
  have hunk : ∀ (m : ℕ) (e : ℚ), "iters/sec".data <:+: (unknownLine m e).data := by
    intro m e
    unfold unknownLine
    exact key _
  have hkn : ∀ (m : ℕ) (t : ℤ) (e : ℚ), "iters/sec".data <:+: (knownLine m t e).data := by
    intro m t e
    unfold knownLine
    exact key _
  have hbr : format_meter n total elapsed = unknownLine n elapsed
      ∨ ∃ t, format_meter n total elapsed = knownLine n t elapsed := by
    cases total with
    | none => left; simp [format_meter]
    | some t =>
        by_cases hgt : (n : ℤ) > t
        · left; simp [format_meter, hgt]
        · by_cases ht0 : t = 0
          · left
            subst ht0
            by_cases hn : 0 < n <;> simp [format_meter, hn]
          · right; exact ⟨t, by simp [format_meter, hgt, ht0]⟩
  refine ⟨?_, ?_, ?_⟩
  · rcases hbr with h | ⟨t, h⟩
    · rw [h]; exact hunk n elapsed
    · rw [h]; exact hkn n t elapsed
  · intro t ht hc
    subst ht
    rcases hc with hgt | ht0
    · simp [format_meter, hgt]
    · subst ht0
      by_cases hn : 0 < n <;> simp [format_meter, hn]
  · intro h
    subst h
    simp [format_meter]

/-- Witness for C5 at `n = 0`, `total = 0`, `elapsed = 0`: the degenerate
inputs select the unknown-total shape without error. -/
theorem format_meter_shape_safe_witness :
    (0 : ℚ) ≤ 0 ∧ format_meter 0 (some 0) 0 = unknownLine 0 0 :=
  ⟨le_refl 0, (format_meter_shape_safe 0 (some 0) 0 (le_refl 0)).2.1 0 rfl (Or.inr rfl)⟩

lemma ratTrunc_of_nonneg (q : ℚ) (h : 0 ≤ q) : ratTrunc q = ⌊q⌋ := if_pos h

lemma floor_natCast_div (a b : ℕ) : ⌊((a : ℚ) / (b : ℚ))⌋ = ((a / b : ℕ) : ℤ) := by
  rw [← Int.natCast_floor_eq_floor (by positivity), Nat.floor_div_eq_div]

lemma pyD_natCast (m : ℕ) : pyD (m : ℤ) = decRepr m := by
  rw [pyD, if_neg (by omega), Int.toNat_natCast]

lemma pyZeroPad_natCast (w m : ℕ) : pyZeroPad w (m : ℤ) = zeroPadNat w m := by
  rw [pyZeroPad, if_neg (by omega), Int.toNat_natCast]

lemma digitChar_isDigit (m : ℕ) (h : m < 10) : (Nat.digitChar m).isDigit := by
  have : ∀ k : ℕ, k < 10 → (Nat.digitChar k).isDigit := by decide
  exact this m h

lemma decDigitsAux_spec (fuel : ℕ) : ∀ n : ℕ, n < fuel →
    decDigitsAux fuel n ≠ [] ∧ ∀ c ∈ decDigitsAux fuel n, c.isDigit := by
  induction fuel with
  | zero => intro n h; omega
  | succ fuel ih =>
      intro n h
      by_cases h10 : n < 10
      · simp [decDigitsAux, h10, digitChar_isDigit n h10]
      · have hrec := ih (n / 10) (by omega)
        simp only [decDigitsAux, if_neg h10]
        constructor
        · simp
        · intro c hc
          rcases List.mem_append.mp hc with hc | hc
          · exact hrec.2 c hc
          · simp at hc
            subst hc
            exact digitChar_isDigit _ (by omega)

lemma decRepr_digits (n : ℕ) :
    (decRepr n).data ≠ [] ∧ ∀ c ∈ (decRepr n).data, c.isDigit :=
  decDigitsAux_spec (n + 1) n (Nat.lt_succ_self n)

lemma decDigitsAux_small (fuel m : ℕ) (hf : 1 ≤ fuel) (hm : m < 10) :
    decDigitsAux fuel m = [Nat.digitChar m] := by
  cases fuel with
  | zero => omega
  | succ fuel => simp [decDigitsAux, hm]

lemma decRepr_small (m : ℕ) (hm : m < 10) : (decRepr m).data = [Nat.digitChar m] := by
  rw [decRepr, decDigitsAux_small (m + 1) m (by omega) hm]

lemma decRepr_two_digits (m : ℕ) (h10 : 10 ≤ m) (h : m < 100) :
    (decRepr m).data = [Nat.digitChar (m / 10), Nat.digitChar (m % 10)] := by
  rw [decRepr]
  cases m with
  | zero => omega
  | succ k =>
      simp only [decDigitsAux, if_neg (by omega : ¬ k + 1 < 10)]
      rw [if_pos (show (k + 1) / 10 < 10 by omega)]
      rfl

lemma length_zeroPadNat2 (m : ℕ) (h : m < 100) : (zeroPadNat 2 m).length = 2 := by
  by_cases h10 : m < 10
  · have := decRepr_small m h10
    simp [zeroPadNat, mkStr, String.length, this]
  · have := decRepr_two_digits m (by omega) h
    simp [zeroPadNat, mkStr, String.length, this]

lemma digits_zeroPadNat (w m : ℕ) :
    (zeroPadNat w m).data ≠ [] ∧ ∀ c ∈ (zeroPadNat w m).data, c.isDigit := by
  have hd := decRepr_digits m
  constructor
  · simp only [zeroPadNat, mkStr, String.data_append]
    intro hcontra
    rcases List.append_eq_nil.mp hcontra with ⟨-, h2⟩
    exact hd.1 h2
  · intro c hc
    simp only [zeroPadNat, mkStr, String.data_append] at hc
    rcases List.mem_append.mp hc with hc | hc
    · have := List.eq_of_mem_replicate hc
      subst this
      decide
    · exact hd.2 c hc

lemma length_mkStr (k : ℕ) (c : Char) : (mkStr k c).length = k := by
  simp [mkStr, String.length]

/-- C10: when `format_meter` takes the known-total branch the guard has
ensured `n ≤ total`, so the fraction is at most 1, the bar is exactly `k`
`#` marks followed by `10 - k` `-` marks for some `k ≤ 10` (10 characters in
all), and the truncated percentage value lies between 0 and 100. -/
theorem format_meter_known_branch_invariants (n : ℕ) (t : ℤ) (elapsed : ℚ)
    (hle : (n : ℤ) ≤ t) (ht : t ≠ 0) :
    format_meter n (some t) elapsed = knownLine n t elapsed
    ∧ (n : ℚ) / (t : ℚ) ≤ 1
    ∧ (∃ k : ℕ, k ≤ 10 ∧ barStr n t = mkStr k '#' ++ mkStr (10 - k) '-'
        ∧ (barStr n t).length = 10)
    ∧ 0 ≤ ratTrunc ((n : ℚ) / (t : ℚ) * 100)
    ∧ ratTrunc ((n : ℚ) / (t : ℚ) * 100) ≤ 100 := by
  have htpos : 0 < t := by omega
  have htq : (0 : ℚ) < (t : ℚ) := by exact_mod_cast htpos
  have hfrac0 : 0 ≤ (n : ℚ) / (t : ℚ) := by positivity
  have hfrac1 : (n : ℚ) / (t : ℚ) ≤ 1 := by
    rw [div_le_one htq]
    exact_mod_cast hle
  have h10 : 0 ≤ ratTrunc ((n : ℚ) / (t : ℚ) * 10) := by
    rw [ratTrunc_of_nonneg _ (by positivity)]
    exact Int.floor_nonneg.mpr (by positivity)
  have h10' : ratTrunc ((n : ℚ) / (t : ℚ) * 10) ≤ 10 := by
    rw [ratTrunc_of_nonneg _ (by positivity)]
    have hub : (n : ℚ) / (t : ℚ) * 10 ≤ 10 := by linarith
    calc ⌊(n : ℚ) / (t : ℚ) * 10⌋ ≤ ⌊(10 : ℚ)⌋ := Int.floor_le_floor hub
      _ = 10 := by norm_num
  refine ⟨?_, hfrac1, ?_, ?_, ?_⟩
  · simp [format_meter, not_lt.mpr hle, ht]
  · refine ⟨(ratTrunc ((n : ℚ) / (t : ℚ) * 10)).toNat, by omega, ?_, ?_⟩
    · have heq : ((10 : ℤ) - ratTrunc ((n : ℚ) / (t : ℚ) * 10)).toNat
          = 10 - (ratTrunc ((n : ℚ) / (t : ℚ) * 10)).toNat := by omega
      simp only [barStr]
      rw [heq]
    · simp only [barStr, String.length_append, length_mkStr]
      omega
  · rw [ratTrunc_of_nonneg _ (by positivity)]
    exact Int.floor_nonneg.mpr (by positivity)
  · rw [ratTrunc_of_nonneg _ (by positivity)]
    have hub : (n : ℚ) / (t : ℚ) * 100 ≤ 100 := by linarith
    calc ⌊(n : ℚ) / (t : ℚ) * 100⌋ ≤ ⌊(100 : ℚ)⌋ := Int.floor_le_floor hub
      _ = 100 := by norm_num

/-- Witness for C10 at `n = 3`, `total = 5`: the branch invariants at a
concrete input. -/
theorem format_meter_known_branch_invariants_witness :
    format_meter 3 (some 5) 0 = knownLine 3 5 0 ∧ (3 : ℚ) / (5 : ℚ) ≤ 1 :=
  ⟨(format_meter_known_branch_invariants 3 5 0 (by omega) (by omega)).1,
    (format_meter_known_branch_invariants 3 5 0 (by omega) (by omega)).2.1⟩

/-- The percentage field as the specification's words describe it: the value
`round(100*n/total)` (nearest integer; ties cannot occur at the inputs used
for comparison), right-justified to width 3 and suffixed `%`. This follows
the spec's wording, for comparison against `pctStr`, which follows the
source. -/
def specPctStr (n total : ℕ) : String :=
  pySpacePad 3 (pyD ⌊100 * (n : ℚ) / (total : ℚ) + 1/2⌋) ++ "%"

/-- C7 counterexample: at `n = 2`, `total = 3` the code renders ` 66%`
(truncation of 200/3 ≈ 66.67) while the claimed `round(100*n/total)` gives
` 67%`; the full meter line shows the truncated field. -/
theorem pct_rounding_counterexample :
    pctStr 2 3 = " 66%" ∧ specPctStr 2 3 = " 67%" ∧ pctStr 2 3 ≠ specPctStr 2 3
    ∧ format_meter 2 (some 3) 1 =
        "|######----| 2/3  66% [elapsed: 00:01 left: 00:00,  2.00 iters/sec]" := by
  have h1 : pctStr 2 3 = " 66%" := by
    norm_num [pctStr, ratTrunc]
    decide
  have h2 : specPctStr 2 3 = " 67%" := by
    norm_num [specPctStr]
    decide
  refine ⟨h1, h2, by rw [h1, h2]; decide, ?_⟩
  norm_num [format_meter, knownLine, barStr, pctStr, leftStr, rateStr, format_interval,
    ratTrunc, pyDivmod, pyF2]
  decide

/-- C7 amended: in the known-total branch (entered for `0 < n ≤ total`), the
rendered percentage field equals `100*n/total` truncated toward zero (the
natural-number quotient), not rounded to nearest, right-justified to width 3
and suffixed `%`. -/
theorem pct_is_truncated (n : ℕ) (t : ℤ) (elapsed : ℚ)
    (hn : 0 < n) (hle : (n : ℤ) ≤ t) :
    format_meter n (some t) elapsed = knownLine n t elapsed
    ∧ pctStr n t = pySpacePad 3 (decRepr (100 * n / t.toNat)) ++ "%" := by
  have htpos : 0 < t := by omega
  have ht : t ≠ 0 := by omega
  constructor
  · simp [format_meter, not_lt.mpr hle, ht]
  · have ht2 : ((t.toNat : ℕ) : ℚ) = ((t : ℤ) : ℚ) := by
      rw [← Int.cast_natCast, Int.toNat_of_nonneg (le_of_lt htpos)]
    have harg : (n : ℚ) / ((t : ℤ) : ℚ) * 100 = ((100 * n : ℕ) : ℚ) / ((t.toNat : ℕ) : ℚ) := by
      rw [ht2]
      push_cast
      ring
    simp only [pctStr]
    rw [harg, ratTrunc_of_nonneg _ (by positivity), floor_natCast_div, pyD_natCast]

/-- Witness for the amended C7 at `n = 2`, `total = 3`. -/
theorem pct_is_truncated_witness :
    format_meter 2 (some 3) 0 = knownLine 2 3 0
    ∧ pctStr 2 3 = pySpacePad 3 (decRepr (100 * 2 / (3 : ℤ).toNat)) ++ "%" :=
  pct_is_truncated 2 3 0 (by decide) (by decide)

lemma fdiv60 (T : ℕ) : Int.fdiv (T : ℤ) 60 = ((T / 60 : ℕ) : ℤ) :=
  (Int.ofNat_fdiv T 60).symm

lemma fmod60 (T : ℕ) : Int.fmod (T : ℤ) 60 = ((T % 60 : ℕ) : ℤ) :=
  (Int.ofNat_fmod T 60).symm

/-- `format_interval` on a nonnegative duration, written over the natural
number of whole seconds `⌊t⌋.toNat`. -/
lemma format_interval_nonneg_eval (t : ℚ) (ht : 0 ≤ t) :
    format_interval t =
      if ⌊t⌋.toNat / 60 / 60 ≠ 0 then
        decRepr (⌊t⌋.toNat / 60 / 60) ++ ":" ++ zeroPadNat 2 (⌊t⌋.toNat / 60 % 60) ++ ":" ++
          zeroPadNat 2 (⌊t⌋.toNat % 60)
      else
        zeroPadNat 2 (⌊t⌋.toNat / 60 % 60) ++ ":" ++ zeroPadNat 2 (⌊t⌋.toNat % 60) := by
  obtain ⟨T, hTeq⟩ : ∃ T : ℕ, ⌊t⌋ = (T : ℤ) :=
    ⟨⌊t⌋.toNat, (Int.toNat_of_nonneg (Int.floor_nonneg.mpr ht)).symm⟩
  simp only [format_interval, pyDivmod, ratTrunc_of_nonneg t ht, hTeq, Int.toNat_natCast,
    fdiv60, fmod60, pyD_natCast, pyZeroPad_natCast, ne_eq, Nat.cast_eq_zero]

/-- The regex shape `^\d+:\d{2}$` (with the first group of width exactly 2,
as `%02d` produces for minutes below 60). -/
def matchesMS (s : String) : Prop :=
  ∃ u v : String, s = u ++ ":" ++ v
    ∧ (u.data ≠ [] ∧ ∀ c ∈ u.data, c.isDigit) ∧ (v.data ≠ [] ∧ ∀ c ∈ v.data, c.isDigit)
    ∧ u.length = 2 ∧ v.length = 2

/-- The regex shape `^\d+:\d{2}:\d{2}$`. -/
def matchesHMS (s : String) : Prop :=
  ∃ u v w : String, s = u ++ ":" ++ v ++ ":" ++ w
    ∧ (u.data ≠ [] ∧ ∀ c ∈ u.data, c.isDigit) ∧ (v.data ≠ [] ∧ ∀ c ∈ v.data, c.isDigit)
    ∧ (w.data ≠ [] ∧ ∀ c ∈ w.data, c.isDigit)
    ∧ v.length = 2 ∧ w.length = 2

/-- C9: for `t ≥ 0`, `format_interval` truncates `t` to whole seconds and
splits by integer division: below one hour the output is `MM:SS` (both fields
zero-padded to width 2, matching `^\d+:\d{2}$`), otherwise `H:MM:SS` (hours
unpadded, matching `^\d+:\d{2}:\d{2}$`), and any two nonnegative durations
with the same integer second count format identically. -/
theorem format_interval_spec (t : ℚ) (ht : 0 ≤ t) :
    (t < 3600 →
      format_interval t
          = zeroPadNat 2 (⌊t⌋.toNat / 60) ++ ":" ++ zeroPadNat 2 (⌊t⌋.toNat % 60)
        ∧ matchesMS (format_interval t))
    ∧ (3600 ≤ t →
      format_interval t
          = decRepr (⌊t⌋.toNat / 60 / 60) ++ ":" ++ zeroPadNat 2 (⌊t⌋.toNat / 60 % 60)
              ++ ":" ++ zeroPadNat 2 (⌊t⌋.toNat % 60)
        ∧ matchesHMS (format_interval t))
    ∧ (∀ t' : ℚ, 0 ≤ t' → ⌊t⌋ = ⌊t'⌋ → format_interval t = format_interval t') := by
  have h0 : (0 : ℤ) ≤ ⌊t⌋ := Int.floor_nonneg.mpr ht
  refine ⟨?_, ?_, ?_⟩
  · intro hlt
    have hTlt : ⌊t⌋.toNat < 3600 := by
      have hfl : ⌊t⌋ < 3600 := Int.floor_lt.mpr (by exact_mod_cast hlt)
      omega
    have hdiv0 : ⌊t⌋.toNat / 60 / 60 = 0 := by
      rw [Nat.div_div_eq_div_mul]
      exact Nat.div_eq_of_lt (by omega)
    have heval := format_interval_nonneg_eval t ht
    rw [hdiv0] at heval
    simp only [ne_eq, not_true_eq_false, if_neg (by simp : ¬ (0 : ℕ) ≠ 0)] at heval
    have hmod : ⌊t⌋.toNat / 60 % 60 = ⌊t⌋.toNat / 60 :=
      Nat.mod_eq_of_lt (by omega)
    rw [hmod] at heval
    refine ⟨heval, ?_⟩
    rw [heval]
    exact ⟨zeroPadNat 2 (⌊t⌋.toNat / 60), zeroPadNat 2 (⌊t⌋.toNat % 60), rfl,
      digits_zeroPadNat 2 _, digits_zeroPadNat 2 _,
      length_zeroPadNat2 _ (by omega), length_zeroPadNat2 _ (by omega)⟩
  · intro hge
    have hTge : 3600 ≤ ⌊t⌋.toNat := by
      have hfl : (3600 : ℤ) ≤ ⌊t⌋ := Int.le_floor.mpr (by exact_mod_cast hge)
      omega
    have hdiv : ⌊t⌋.toNat / 60 / 60 ≠ 0 := by
      rw [Nat.div_div_eq_div_mul]
      have : 1 ≤ ⌊t⌋.toNat / 3600 := (Nat.one_le_div_iff (by norm_num)).mpr hTge
      omega
    have heval := format_interval_nonneg_eval t ht
    rw [if_pos hdiv] at heval
    refine ⟨heval, ?_⟩
    rw [heval]
    exact ⟨decRepr (⌊t⌋.toNat / 60 / 60), zeroPadNat 2 (⌊t⌋.toNat / 60 % 60),
      zeroPadNat 2 (⌊t⌋.toNat % 60), rfl,
      decRepr_digits _, digits_zeroPadNat 2 _, digits_zeroPadNat 2 _,
      length_zeroPadNat2 _ (by omega), length_zeroPadNat2 _ (by omega)⟩
  · intro t' ht' hfl
    rw [format_interval_nonneg_eval t ht, format_interval_nonneg_eval t' ht', hfl]

/-- Witness for C9 at `t = 0`. -/
theorem format_interval_spec_witness :
    (0 : ℚ) ≤ 0 ∧ format_interval 0 = format_interval 0 :=
  ⟨le_refl 0, (format_interval_spec 0 (le_refl 0)).2.2 0 (le_refl 0) rfl⟩
